import Mathlib

/-!
Verification of the perplexity batch-scoring pipeline
(`perplexity_batch_processor.py`, `perplexity_phrase_sorter.py`,
`extract_results.py`).

Embedding conventions:
* Python floats are modelled as exact values: probabilities and NLLs over `ℝ`
  (with the IEEE special values `nan`, `+inf`, `-inf` made explicit in `FVal`),
  and scores persisted in the SQLite store as `SVal` (a rational, or the
  `float('inf')` sentinel).  Floating-point rounding is outside the model.
* The SQLite `sentences` table is a list of records with strictly increasing
  `id`s plus the autoincrement counter (`Store`).
* SQLite semantics relevant to the queries are embedded faithfully:
  a comparison of a REAL column with the TEXT literal `'inf'` (which is not a
  well-formed numeric literal, so no affinity conversion applies and values of
  distinct storage classes compare by class, REAL < TEXT) is never true;
  `LIKE` folds ASCII case by default; `LOG` is the base-10 logarithm;
  an `UPDATE` whose WHERE clause matches no row succeeds with zero changes.
-/

/-- Model of a Python float as seen by the scorer: NaN, the two infinities, or
a finite real value. -/
inductive FVal where
  | nan : FVal
  | posInf : FVal
  | negInf : FVal
  | val : ℝ → FVal

/-- The external language-model capability consumed by the scorer:
`encode` is `tokenizer.encode` (may raise), `prob` takes a context (the list
`tokens[:i+1]`) and the target token id and returns
`float(softmax(model(context))[0,-1,target])` (any step may raise; a raised
exception is an `Except.error`). -/
structure LM where
  encode : String → Except String (List ℕ)
  prob : List ℕ → ℕ → Except String FVal

/-- The scorer's result: the `float('inf')` sentinel or a finite value. -/
inductive Perp where
  | inf : Perp
  | fin : ℝ → Perp

/-- Loop body of `calculate_perplexity`: the accumulator is
`(total_nll, num_predictions)`.  Mirrors the source: a finite positive
probability contributes `-math.log(p)`, every other case the fixed penalty
`20.0`; both branches count the position as a prediction. -/
noncomputable def nllStep (acc : ℝ × ℕ) (p : FVal) : ℝ × ℕ :=
  match p with
  | FVal.val x =>
      if 0 < x then (acc.1 + -Real.log x, acc.2 + 1)
      else (acc.1 + 20, acc.2 + 1)
  | _ => (acc.1 + 20, acc.2 + 1)

/-- The loop `for i in range(len(tokens) - 1)` querying the model at each
position; an exception at any position aborts the whole computation
(propagated to `calculate_perplexity`'s `except` handler). -/
def probsOf (lm : LM) (tokens : List ℕ) : List ℕ → Except String (List FVal)
  | [] => Except.ok []
  | i :: rest =>
    match lm.prob (tokens.take (i + 1)) (tokens.getD (i + 1) 0) with
    | Except.error e => Except.error e
    | Except.ok p =>
      match probsOf lm tokens rest with
      | Except.error e => Except.error e
      | Except.ok ps => Except.ok (p :: ps)

/-- `calculate_perplexity` of `perplexity_batch_processor.py` (the algorithm of
`calculate_perplexity_simple` in `perplexity_phrase_sorter.py` is identical):
tokenize; fewer than 2 tokens returns `float('inf')`; otherwise accumulate
per-position NLL with the `20.0` penalty for invalid probabilities, and return
`exp(total_nll / num_predictions)`.  Any exception yields `float('inf')`. -/
noncomputable def calculate_perplexity (lm : LM) (sentence : String) : Perp :=
  match lm.encode sentence with
  | Except.error _ => Perp.inf
  | Except.ok tokens =>
    if tokens.length < 2 then Perp.inf
    else
      match probsOf lm tokens (List.range (tokens.length - 1)) with
      | Except.error _ => Perp.inf
      | Except.ok probs =>
        let r := probs.foldl nllStep (0, 0)
        if r.2 = 0 then Perp.inf
        else Perp.fin (Real.exp (r.1 / (r.2 : ℝ)))

/-- Per-position NLL in the words of the spec: `-ln p` when the predicted
probability is finite, positive and not NaN, else the fixed penalty `20.0`. -/
noncomputable def specNll (p : FVal) : ℝ :=
  match p with
  | FVal.val x => if 0 < x then -Real.log x else 20
  | _ => 20

/-- A row of the `sentences` table (`created_at` is not used by any query the
claims are about and is omitted). -/
structure SRec (α : Type) where
  id : ℕ
  text : String
  perplexity : Option α
deriving DecidableEq

/-- The persistent store: the rows plus the AUTOINCREMENT counter. -/
structure Store (α : Type) where
  recs : List (SRec α)
  nextId : ℕ
deriving DecidableEq

/-- Well-formedness of a store as SQLite maintains it: rows in strictly
increasing `id` order (AUTOINCREMENT), UNIQUE `text`, ids below the counter. -/
def StoreWF {α : Type} (st : Store α) : Prop :=
  st.recs.Pairwise (fun a b => a.id < b.id) ∧
  (st.recs.map (fun r => r.text)).Nodup ∧
  ∀ r ∈ st.recs, r.id < st.nextId

instance {α : Type} (st : Store α) : Decidable (StoreWF st) := by
  unfold StoreWF
  infer_instance

/-- `INSERT OR IGNORE INTO sentences (text, perplexity) VALUES (?, NULL)`:
a no-op when the UNIQUE `text` is already present. -/
def insert_if_absent {α : Type} (st : Store α) (s : String) : Store α :=
  if st.recs.any (fun r => r.text == s) then st
  else Store.mk (st.recs ++ [SRec.mk st.nextId s none]) (st.nextId + 1)

/-- `store_sentences`: insert every sentence with `INSERT OR IGNORE`. -/
def store_sentences {α : Type} (st : Store α) (sentences : List String) : Store α :=
  sentences.foldl insert_if_absent st

/-- Insertion sort by `id`, embedding `ORDER BY id`. -/
def sortById {α : Type} (l : List (SRec α)) : List (SRec α) :=
  List.insertionSort (fun a b => a.id ≤ b.id) l

/-- `get_pending_sentences`: `SELECT id, text FROM sentences WHERE perplexity
IS NULL ORDER BY id`. -/
def get_pending_sentences {α : Type} (st : Store α) : List (ℕ × String) :=
  (sortById (st.recs.filter (fun r => r.perplexity.isNone))).map (fun r => (r.id, r.text))

/-- `UPDATE sentences SET perplexity = ? WHERE id = ?`. -/
def store_result {α : Type} (st : Store α) (sentence_id : ℕ) (perplexity : α) : Store α :=
  Store.mk
    (st.recs.map (fun r =>
      if r.id = sentence_id then SRec.mk r.id r.text (some perplexity) else r))
    st.nextId

/-- `store_result` with its error surface: the `except sqlite3.Error` handler
in the source never fires for a missing id, because an `UPDATE` whose WHERE
clause matches no row is a successful statement affecting zero rows; the
operation therefore always returns `Except.ok`. -/
def store_result_checked {α : Type} (st : Store α) (sentence_id : ℕ) (perplexity : α) :
    Except String (Store α) :=
  Except.ok (store_result st sentence_id perplexity)

/-- The first `n` iterations of the `process_batch` loop: the pending list is
snapshotted once, and each record is scored and persisted in order.  `score`
abstracts `calculate_perplexity` on the loaded model. -/
def processFirst {α : Type} (score : String → α) (st : Store α) (n : ℕ) : Store α :=
  ((get_pending_sentences st).take n).foldl (fun s p => store_result s p.1 (score p.2)) st

/-- `process_batch`: drain the whole pending snapshot. -/
def process_batch {α : Type} (score : String → α) (st : Store α) : Store α :=
  processFirst score st (get_pending_sentences st).length

/-- Score column of the first row with a given id (`none` when no such row). -/
def lookupScoreList {α : Type} : List (SRec α) → ℕ → Option (Option α)
  | [], _ => none
  | r :: rest, i => if r.id = i then some r.perplexity else lookupScoreList rest i

/-- Score column of the row with a given id (`none` when no such row). -/
def lookupScore {α : Type} (st : Store α) (i : ℕ) : Option (Option α) :=
  lookupScoreList st.recs i

/-- A score as stored in the REAL `perplexity` column: the `float('inf')`
sentinel or a finite value (modelled as a rational). -/
inductive SVal where
  | inf : SVal
  | fin : ℚ → SVal
deriving DecidableEq

/-- SQLite comparison of the REAL column value with the TEXT literal `'inf'`
(`perplexity = 'inf'`).  `'inf'` is not a well-formed numeric literal, so the
REAL affinity of the column does not convert it; operands of distinct storage
classes compare by class (REAL < TEXT), hence the equality is false for every
stored value — including the REAL infinity. -/
def sqlEqTextInf (_ : SVal) : Bool := false

/-- SQLite numeric order on REAL scores (`+Inf` compares above every finite
value). -/
def SVal.le : SVal → SVal → Bool
  | _, SVal.inf => true
  | SVal.inf, SVal.fin _ => false
  | SVal.fin a, SVal.fin b => a ≤ b

/-- Score of a scored row (only applied to rows passing `perplexity IS NOT
NULL`; the default is never reached there). -/
def perpOf (r : SRec SVal) : SVal := r.perplexity.getD (SVal.fin 0)

/-- Row order embedding `ORDER BY perplexity DESC`. -/
def descRel (a b : SRec SVal) : Prop := SVal.le (perpOf b) (perpOf a) = true

/-- Row order embedding `ORDER BY perplexity ASC`. -/
def ascRel (a b : SRec SVal) : Prop := SVal.le (perpOf a) (perpOf b) = true

instance : DecidableRel descRel := fun a b => by unfold descRel; infer_instance

instance : DecidableRel ascRel := fun a b => by unfold ascRel; infer_instance

/-- `get_sentences_by_perplexity` of `extract_results.py`: rows with a score,
optional inclusive score-range filters, `ORDER BY perplexity DESC`, optional
`LIMIT`. -/
def get_sentences_by_perplexity (st : Store SVal) (limit : Option ℕ)
    (min_perplexity max_perplexity : Option SVal) : List (String × SVal) :=
  let rows := st.recs.filter (fun r =>
    r.perplexity.isSome &&
    (match min_perplexity with
     | none => true
     | some m => SVal.le m (perpOf r)) &&
    (match max_perplexity with
     | none => true
     | some m => SVal.le (perpOf r) m))
  let sorted := List.insertionSort descRel rows
  let limited := match limit with
    | none => sorted
    | some n => sorted.take n
  limited.map (fun r => (r.text, perpOf r))

/-- `get_top_perplexity_sentences`. -/
def get_top_perplexity_sentences (st : Store SVal) (n : ℕ) : List (String × SVal) :=
  get_sentences_by_perplexity st (some n) none none

/-- `get_bottom_perplexity_sentences`: `WHERE perplexity IS NOT NULL AND
perplexity != 'inf' ORDER BY perplexity ASC LIMIT ?` (the second conjunct is
`!(sqlEqTextInf v)`, which SQLite evaluates to true for every stored REAL). -/
def get_bottom_perplexity_sentences (st : Store SVal) (n : ℕ) : List (String × SVal) :=
  let rows := st.recs.filter (fun r =>
    match r.perplexity with
    | some v => !(sqlEqTextInf v)
    | none => false)
  ((List.insertionSort ascRel rows).take n).map (fun r => (r.text, perpOf r))

/-- SQLite `SUM` over the selected REAL scores (`+Inf` absorbs; all scores in
this database are positive or `+Inf`, `-Inf` never occurs). -/
def sqlSum (l : List SVal) : SVal :=
  l.foldl
    (fun acc v =>
      match acc, v with
      | SVal.inf, _ => SVal.inf
      | _, SVal.inf => SVal.inf
      | SVal.fin a, SVal.fin b => SVal.fin (a + b))
    (SVal.fin 0)

/-- SQLite `AVG` (NULL on the empty selection). -/
def sqlAvg (l : List SVal) : Option SVal :=
  if l.isEmpty then none
  else some
    (match sqlSum l with
     | SVal.inf => SVal.inf
     | SVal.fin s => SVal.fin (s / (l.length : ℚ)))

/-- SQLite `MIN` (NULL on the empty selection). -/
def sqlMin (l : List SVal) : Option SVal :=
  match l with
  | [] => none
  | v :: rest => some (rest.foldl (fun a b => if SVal.le a b then a else b) v)

/-- SQLite `MAX` (NULL on the empty selection). -/
def sqlMax (l : List SVal) : Option SVal :=
  match l with
  | [] => none
  | v :: rest => some (rest.foldl (fun a b => if SVal.le a b then b else a) v)

/-- The statistics dictionary returned by `get_statistics`. -/
structure Stats where
  total : ℕ
  processed : ℕ
  remaining : ℕ
  avg_perplexity : Option SVal
  min_perplexity : Option SVal
  max_perplexity : Option SVal
  infinite_count : ℕ
deriving DecidableEq

/-- The scores selected by `WHERE perplexity IS NOT NULL AND perplexity !=
'inf'` (the second conjunct holds for every stored REAL, see `sqlEqTextInf`). -/
def scoredVals (st : Store SVal) : List SVal :=
  (st.recs.filter (fun r =>
    match r.perplexity with
    | some v => !(sqlEqTextInf v)
    | none => false)).map perpOf

/-- `get_statistics` of `extract_results.py` (the aggregates of
`print_statistics` in `perplexity_batch_processor.py` use the same queries). -/
def get_statistics (st : Store SVal) : Stats :=
  Stats.mk
    st.recs.length
    (st.recs.filter (fun r => r.perplexity.isSome)).length
    (st.recs.length - (st.recs.filter (fun r => r.perplexity.isSome)).length)
    (sqlAvg (scoredVals st))
    (sqlMin (scoredVals st))
    (sqlMax (scoredVals st))
    (st.recs.filter (fun r =>
      match r.perplexity with
      | some v => sqlEqTextInf v
      | none => false)).length

/-- ASCII lower-casing, as SQLite's `LIKE` and `lower()` fold case (ASCII
letters only). -/
def lowerAscii (c : Char) : Char :=
  if 'A' ≤ c ∧ c ≤ 'Z' then Char.ofNat (c.toNat + 32) else c

/-- SQLite `LIKE` matcher (`%` and `_` wildcards, ASCII-case-insensitive by
default — `PRAGMA case_sensitive_like` is never set by the source).  Fueled to
keep the recursion structural; the initial fuel in `likeMatch` strictly
exceeds the number of steps, each of which shrinks pattern + text. -/
def likeAux : ℕ → List Char → List Char → Bool
  | 0, _, _ => false
  | _ + 1, [], [] => true
  | _ + 1, [], _ :: _ => false
  | fuel + 1, p :: ps, ts =>
    if p = '%' then
      likeAux fuel ps ts ||
        (match ts with
         | [] => false
         | _ :: ts2 => likeAux fuel (p :: ps) ts2)
    else
      match ts with
      | [] => false
      | t :: ts2 =>
        if p = '_' then likeAux fuel ps ts2
        else lowerAscii p == lowerAscii t && likeAux fuel ps ts2

/-- `text LIKE pattern` in SQLite. -/
def likeMatch (pattern text : String) : Bool :=
  likeAux (pattern.data.length + text.data.length + 1) pattern.data text.data

/-- SQLite `lower()` applied to a whole string. -/
def lowerStr (s : String) : String := String.mk (s.data.map lowerAscii)

/-- `search_sentences`: pattern `'%' + keyword + '%'`; the `case_sensitive`
branch uses plain `LIKE` (which still folds ASCII case), the other branch
lowercases both sides first; scored rows only, `ORDER BY perplexity DESC`. -/
def search_sentences (st : Store SVal) (keyword : String) (case_sensitive : Bool) :
    List (String × SVal) :=
  let pattern := "%" ++ keyword ++ "%"
  let rows := st.recs.filter (fun r =>
    (if case_sensitive then likeMatch pattern r.text
     else likeMatch (lowerStr pattern) (lowerStr r.text)) &&
    r.perplexity.isSome)
  (List.insertionSort descRel rows).map (fun r => (r.text, perpOf r))

/-- The SQL expression `perplexity * LOG(LENGTH(text))` of
`get_most_complex_sentences`: `LENGTH` counts characters and `LOG` is the
base-10 logarithm.  `LOG(0)` is NULL, `Inf * 0` is NaN which SQLite arithmetic
turns into NULL, and NULL sorts below every value (so last under `ORDER BY
... DESC`); both NULL results are modelled as `⊥`. -/
noncomputable def complexityKey (v : SVal) (len : ℕ) : EReal :=
  if len = 0 then ⊥
  else
    match v with
    | SVal.fin q => (((q : ℝ) * Real.logb 10 (len : ℝ) : ℝ) : EReal)
    | SVal.inf => if len = 1 then ⊥ else ⊤

/-- Rows selected by `get_most_complex_sentences`: `perplexity IS NOT NULL AND
perplexity != 'inf' AND LENGTH(text) >= min_length` (the `!= 'inf'` conjunct
holds for every stored REAL, see `sqlEqTextInf`). -/
def eligibleComplex (st : Store SVal) (min_length : ℕ) : List (SRec SVal) :=
  st.recs.filter (fun r =>
    (match r.perplexity with
     | some v => !(sqlEqTextInf v)
     | none => false) &&
    decide (min_length ≤ r.text.length))

/-- Row order embedding `ORDER BY complexity_score DESC`. -/
noncomputable def complexDescRel (a b : SRec SVal) : Prop :=
  complexityKey (perpOf b) b.text.length ≤ complexityKey (perpOf a) a.text.length

instance : IsTotal (SRec SVal) complexDescRel :=
  ⟨fun a b => le_total (complexityKey (perpOf b) b.text.length)
    (complexityKey (perpOf a) a.text.length)⟩

instance : IsTrans (SRec SVal) complexDescRel :=
  ⟨fun _ _ _ hab hbc => le_trans hbc hab⟩

open scoped Classical in
/-- The selected rows of `get_most_complex_sentences` in output order. -/
noncomputable def sortedComplex (st : Store SVal) (min_length : ℕ) : List (SRec SVal) :=
  List.insertionSort complexDescRel (eligibleComplex st min_length)

/-- `get_most_complex_sentences`: the `LIMIT n` top rows with their
`(text, perplexity, complexity_score)` triples. -/
noncomputable def get_most_complex_sentences (st : Store SVal) (n : ℕ) (min_length : ℕ) :
    List (String × SVal × EReal) :=
  ((sortedComplex st min_length).take n).map
    (fun r => (r.text, perpOf r, complexityKey (perpOf r) r.text.length))

/-- The quote-escaping of the csv branch of `export_to_text`:
`sentence.replace('"', '""')`. -/
def csvEscape : List Char → List Char
  | [] => []
  | c :: cs => if c = '"' then '"' :: '"' :: csvEscape cs else c :: csvEscape cs

/-- Decimal digits of a natural number, most significant first (the rendering
of a number in the score field; scores are exact in this model, so a rational
is rendered as `num/den` rather than a floating decimal). -/
def showNat (n : ℕ) : List Char :=
  if n = 0 then ['0'] else ((Nat.digits 10 n).map Nat.digitChar).reverse

/-- Rendering of an integer (sign then digits). -/
def showInt (i : ℤ) : List Char :=
  if i < 0 then '-' :: showNat i.natAbs else showNat i.natAbs

/-- Rendering of a stored score in the csv score field: `float('inf')` prints
as `inf`, a finite score as `num/den`. -/
def showScore : SVal → List Char
  | SVal.inf => ['i', 'n', 'f']
  | SVal.fin q => showInt q.num ++ '/' :: showNat q.den

/-- The csv header line written by `export_to_text`. -/
def csvHeaderChars : List Char := "sentence,perplexity\n".data

/-- One csv data line: `f-string '"{escaped_sentence}",{perplexity}\n'`. -/
def csvLine (row : String × SVal) : List Char :=
  '"' :: csvEscape row.1.data ++ '"' :: ',' :: showScore row.2 ++ ['\n']

/-- The data lines of the csv export, in row order. -/
def csvLines : List (String × SVal) → List Char
  | [] => []
  | row :: rows => csvLine row ++ csvLines rows

/-- The csv branch of `export_to_text`, applied to the rows it writes (the
source obtains them from `get_sentences_by_perplexity()`). -/
def export_to_text_csv (rows : List (String × SVal)) : String :=
  String.mk (csvHeaderChars ++ csvLines rows)

/-- Parse a decimal digit. -/
def parseDigit (c : Char) : Option ℕ :=
  if '0' ≤ c ∧ c ≤ '9' then some (c.toNat - '0'.toNat) else none

/-- Accumulating decimal parser. -/
def parseNatAux : List Char → ℕ → Option ℕ
  | [], acc => some acc
  | c :: cs, acc =>
    match parseDigit c with
    | some d => parseNatAux cs (10 * acc + d)
    | none => none

/-- Parse a non-empty digit string. -/
def parseNatChars (l : List Char) : Option ℕ :=
  match l with
  | [] => none
  | _ :: _ => parseNatAux l 0

/-- Parse an optionally negated digit string. -/
def parseIntChars : List Char → Option ℤ
  | [] => none
  | c :: rest =>
    if c = '-' then (parseNatChars rest).map (fun n => -(n : ℤ))
    else (parseNatChars (c :: rest)).map (fun n => (n : ℤ))

/-- Split a character list at the first occurrence of `sep` (fails when `sep`
does not occur). -/
def splitOnChar (sep : Char) : List Char → Option (List Char × List Char)
  | [] => none
  | c :: rest =>
    if c = sep then some ([], rest)
    else
      match splitOnChar sep rest with
      | some (a, b) => some (c :: a, b)
      | none => none

/-- Parse a score field back (`inf` or `num/den`). -/
def parseScoreChars (l : List Char) : Option SVal :=
  if l = ['i', 'n', 'f'] then some SVal.inf
  else
    match splitOnChar '/' l with
    | some (a, b) =>
      match parseIntChars a, parseNatChars b with
      | some num, some den => some (SVal.fin (mkRat num den))
      | _, _ => none
    | none => none

/-- Read a quoted csv field after its opening quote: `""` is an escaped quote,
a lone `"` closes the field. -/
def parseFieldAux : List Char → List Char → Option (List Char × List Char)
  | [], _ => none
  | c :: rest, acc =>
    if c = '"' then
      match rest with
      | '"' :: rest2 => parseFieldAux rest2 (acc ++ ['"'])
      | _ => some (acc, rest)
    else parseFieldAux rest (acc ++ [c])

/-- Read one csv data line: quoted sentence, comma, score, newline.  Returns
the parsed row and the remaining input. -/
def parseRow (l : List Char) : Option ((String × SVal) × List Char) :=
  match l with
  | [] => none
  | c :: rest =>
    if c = '"' then
      match parseFieldAux rest [] with
      | some (tchars, rest2) =>
        match rest2 with
        | ',' :: rest3 =>
          match splitOnChar '\n' rest3 with
          | some (schars, rest4) =>
            match parseScoreChars schars with
            | some v => some ((String.mk tchars, v), rest4)
            | none => none
          | none => none
        | _ => none
      | none => none
    else none

/-- Read all csv data lines (fuel-bounded; each line consumes at least one
character, so the input length is enough fuel). -/
def parseRowsAux : ℕ → List Char → Option (List (String × SVal))
  | _, [] => some []
  | 0, _ :: _ => none
  | fuel + 1, c :: rest =>
    match parseRow (c :: rest) with
    | some (row, remaining) => (parseRowsAux fuel remaining).map (fun rows => row :: rows)
    | none => none

/-- Parse a csv export back into its (text, score) rows. -/
def parse_csv (s : String) : Option (List (String × SVal)) :=
  if s.data.take csvHeaderChars.length = csvHeaderChars then
    parseRowsAux (s.data.drop csvHeaderChars.length).length (s.data.drop csvHeaderChars.length)
  else none

/-- Store state of the spec's statistics example: `A` scored `5.0`, `B` scored
`float('inf')`, `C` not yet scored. -/
def exStats : Store SVal :=
  Store.mk
    [SRec.mk 1 "A" (some (SVal.fin 5)), SRec.mk 2 "B" (some SVal.inf), SRec.mk 3 "C" none] 4

/-- Store with one finite and one infinite score, for the ranking views. -/
def exRank : Store SVal :=
  Store.mk [SRec.mk 1 "a" (some (SVal.fin 5)), SRec.mk 2 "b" (some SVal.inf)] 3

/-- Store with one scored lower-case sentence, for the keyword search. -/
def exSearch : Store SVal :=
  Store.mk [SRec.mk 1 "hello world" (some (SVal.fin 1))] 2

/-- Store with a finite-scored and an infinite-scored sentence of ten
characters each, for the complexity ranking. -/
def exComplex : Store SVal :=
  Store.mk
    [SRec.mk 1 "aaaaaaaaaa" (some (SVal.fin 3)), SRec.mk 2 "bbbbbbbbbb" (some SVal.inf)] 3

/-- Store with two pending and one scored sentence, for the batch runner. -/
def exBatch : Store SVal :=
  Store.mk
    [SRec.mk 1 "s1" none, SRec.mk 2 "s2" (some (SVal.fin 3)), SRec.mk 3 "s3" none] 4

/-- A deterministic stub model: three tokens for every sentence, probability
`1.0` for every prediction. -/
def exLM : LM :=
  LM.mk (fun _ => Except.ok [0, 1, 2]) (fun _ _ => Except.ok (FVal.val 1))

theorem nllStep_eq (acc : ℝ × ℕ) (p : FVal) :
    nllStep acc p = (acc.1 + specNll p, acc.2 + 1) := by
  cases p with
  | val x => by_cases h : 0 < x <;> simp [nllStep, specNll, h]
  | nan => rfl
  | posInf => rfl
  | negInf => rfl

theorem foldl_nllStep (probs : List FVal) (t : ℝ) (k : ℕ) :
    probs.foldl nllStep (t, k) = (t + (probs.map specNll).sum, k + probs.length) := by
  induction probs generalizing t k with
  | nil => simp
  | cons p ps ih =>
    rw [List.foldl_cons, nllStep_eq, ih]
    refine Prod.ext ?_ ?_
    · simp [add_assoc]
    · simp only [List.length_cons]
      omega

theorem probsOf_length (lm : LM) (tokens : List ℕ) :
    ∀ idxs probs, probsOf lm tokens idxs = Except.ok probs → probs.length = idxs.length := by
  intro idxs
  induction idxs with
  | nil =>
    intro probs h
    unfold probsOf at h
    cases h
    rfl
  | cons i rest ih =>
    intro probs h
    unfold probsOf at h
    cases hp : lm.prob (tokens.take (i + 1)) (tokens.getD (i + 1) 0) with
    | error e => rw [hp] at h; cases h
    | ok p =>
      rw [hp] at h
      cases hr : probsOf lm tokens rest with
      | error e => rw [hr] at h; cases h
      | ok ps =>
        rw [hr] at h
        cases h
        simp [ih ps hr]

theorem calculate_perplexity_encode_error (lm : LM) (s : String) (e : String)
    (henc : lm.encode s = Except.error e) : calculate_perplexity lm s = Perp.inf := by
  unfold calculate_perplexity
  rw [henc]

theorem calculate_perplexity_short (lm : LM) (s : String) (tokens : List ℕ)
    (henc : lm.encode s = Except.ok tokens) (hlt : tokens.length < 2) :
    calculate_perplexity lm s = Perp.inf := by
  unfold calculate_perplexity
  rw [henc]
  exact if_pos hlt

theorem calculate_perplexity_probs_error (lm : LM) (s : String) (tokens : List ℕ)
    (e : String) (henc : lm.encode s = Except.ok tokens) (hge : ¬ tokens.length < 2)
    (hpe : probsOf lm tokens (List.range (tokens.length - 1)) = Except.error e) :
    calculate_perplexity lm s = Perp.inf := by
  unfold calculate_perplexity
  rw [henc]
  show (if tokens.length < 2 then Perp.inf
    else
      match probsOf lm tokens (List.range (tokens.length - 1)) with
      | Except.error _ => Perp.inf
      | Except.ok probs =>
        let r := probs.foldl nllStep (0, 0)
        if r.2 = 0 then Perp.inf else Perp.fin (Real.exp (r.1 / (r.2 : ℝ)))) = Perp.inf
  rw [if_neg hge, hpe]

theorem calculate_perplexity_probs_ok (lm : LM) (s : String) (tokens : List ℕ)
    (probs : List FVal) (henc : lm.encode s = Except.ok tokens)
    (hge : ¬ tokens.length < 2)
    (hpr : probsOf lm tokens (List.range (tokens.length - 1)) = Except.ok probs) :
    calculate_perplexity lm s =
      (if probs.length = 0 then Perp.inf
       else Perp.fin (Real.exp ((probs.map specNll).sum / (probs.length : ℝ)))) := by
  unfold calculate_perplexity
  rw [henc]
  show (if tokens.length < 2 then Perp.inf
    else
      match probsOf lm tokens (List.range (tokens.length - 1)) with
      | Except.error _ => Perp.inf
      | Except.ok probs =>
        let r := probs.foldl nllStep (0, 0)
        if r.2 = 0 then Perp.inf else Perp.fin (Real.exp (r.1 / (r.2 : ℝ)))) = _
  rw [if_neg hge, hpr]
  show (if (probs.foldl nllStep (0, 0)).2 = 0 then Perp.inf
    else Perp.fin (Real.exp ((probs.foldl nllStep (0, 0)).1 /
      ((probs.foldl nllStep (0, 0)).2 : ℝ)))) = _
  rw [foldl_nllStep]
  show (if 0 + probs.length = 0 then Perp.inf
    else Perp.fin (Real.exp ((0 + (probs.map specNll).sum) / ((0 + probs.length : ℕ) : ℝ)))) = _
  rw [Nat.zero_add, zero_add]

/-- C1: the scorer tokenizes the sentence, returns the infinite sentinel when
fewer than 2 tokens result, and otherwise, with every model query succeeding,
counts one prediction for each of the `len(tokens) - 1` positions (valid
probabilities contribute `-ln p`, all other values the fixed penalty `20.0`,
as `specNll` states) and returns `exp` of the total NLL over the number of
predictions. -/
theorem C1_scorer_algorithm (lm : LM) (s : String) (tokens : List ℕ)
    (henc : lm.encode s = Except.ok tokens) :
    (tokens.length < 2 → calculate_perplexity lm s = Perp.inf) ∧
    (∀ probs, 2 ≤ tokens.length →
      probsOf lm tokens (List.range (tokens.length - 1)) = Except.ok probs →
      probs.length = tokens.length - 1 ∧
      calculate_perplexity lm s =
        Perp.fin (Real.exp ((probs.map specNll).sum / ((tokens.length - 1 : ℕ) : ℝ)))) := by
  constructor
  · intro hlt
    exact calculate_perplexity_short lm s tokens henc hlt
  · intro probs h2 hpr
    have hlen : probs.length = tokens.length - 1 := by
      rw [probsOf_length lm tokens _ probs hpr, List.length_range]
    refine ⟨hlen, ?_⟩
    rw [calculate_perplexity_probs_ok lm s tokens probs henc (not_lt.mpr h2) hpr]
    have hne : ¬ probs.length = 0 := by
      rw [hlen]
      omega
    rw [if_neg hne, hlen]

/-- Witness for C1: the stub model tokenizes to three tokens and answers every
query with probability one, so both branches of the theorem apply. -/
theorem C1_scorer_algorithm_witness :
    exLM.encode "ab" = Except.ok [0, 1, 2] ∧
    ((([0, 1, 2] : List ℕ).length < 2 → calculate_perplexity exLM "ab" = Perp.inf) ∧
      (∀ probs, 2 ≤ ([0, 1, 2] : List ℕ).length →
        probsOf exLM [0, 1, 2] (List.range (([0, 1, 2] : List ℕ).length - 1)) =
          Except.ok probs →
        probs.length = ([0, 1, 2] : List ℕ).length - 1 ∧
        calculate_perplexity exLM "ab" =
          Perp.fin (Real.exp ((probs.map specNll).sum /
            ((([0, 1, 2] : List ℕ).length - 1 : ℕ) : ℝ))))) :=
  ⟨rfl, C1_scorer_algorithm exLM "ab" [0, 1, 2] rfl⟩

/-- C10: whatever the tokenizer and model do (any token sequence, any
probability values, any raised exception), the scorer returns either the
infinite sentinel or a strictly positive finite value — never zero, negative,
or undefined. -/
theorem C10_score_positive (lm : LM) (s : String) :
    calculate_perplexity lm s = Perp.inf ∨
    ∃ x : ℝ, calculate_perplexity lm s = Perp.fin x ∧ 0 < x := by
  cases henc : lm.encode s with
  | error e => exact Or.inl (calculate_perplexity_encode_error lm s e henc)
  | ok tokens =>
    by_cases hlt : tokens.length < 2
    · exact Or.inl (calculate_perplexity_short lm s tokens henc hlt)
    · cases hpr : probsOf lm tokens (List.range (tokens.length - 1)) with
      | error e => exact Or.inl (calculate_perplexity_probs_error lm s tokens e henc hlt hpr)
      | ok probs =>
        rw [calculate_perplexity_probs_ok lm s tokens probs henc hlt hpr]
        by_cases h0 : probs.length = 0
        · exact Or.inl (if_pos h0)
        · exact Or.inr ⟨_, if_neg h0, Real.exp_pos _⟩

/-- C3: evaluation of `get_statistics` on the spec's example store
`(A : 5.0, B : infinite, C : absent)`.  Because the SQL filter
`perplexity != 'inf'` compares a REAL with a TEXT value and is therefore
always true, and `perplexity = 'inf'` is always false, the code reports
`infinite_count = 0` and computes avg and max over the infinite score as well
(avg = max = infinite), where the claim expects `infinite_count = 1` and
`avg = min = max = 5.0`. -/
theorem C3_statistics_eval :
    get_statistics exStats =
      Stats.mk 3 2 1 (some SVal.inf) (some (SVal.fin 5)) (some SVal.inf) 0 := by decide

/-- C4: evaluation of the ranking views on a store with scores
`(a : 5.0, b : infinite)`.  `top_n(2)` correctly ranks the infinite score
first, but `bottom_n(2)` returns the infinite record as well (ascending, so
last), because its `perplexity != 'inf'` filter compares a REAL with a TEXT
value and excludes nothing — the claim expects `[a]` only. -/
theorem C4_ranking_eval :
    get_top_perplexity_sentences exRank 2 = [("b", SVal.inf), ("a", SVal.fin 5)] ∧
    get_bottom_perplexity_sentences exRank 2 = [("a", SVal.fin 5), ("b", SVal.inf)] := by
  decide

/-- C6: evaluation of `search_sentences` with `case_sensitive = True` on a
store whose only record is `hello world` (scored 1.0): searching for `Hello`
still returns the record, because SQLite's `LIKE` folds ASCII case by default
and the source never sets `PRAGMA case_sensitive_like` — the claim expects no
match when the case differs. -/
theorem C6_search_eval :
    search_sentences exSearch "Hello" true = [("hello world", SVal.fin 1)] := by decide

/-- C8 counterexample: setting a score for the absent id 7 succeeds (no
error is reported — an UPDATE matching no row is a successful statement) and
leaves the store unchanged, where the claim requires the operation to fail. -/
theorem C8_counterexample :
    store_result_checked exRank 7 (SVal.fin 1) = Except.ok exRank := rfl

theorem updId {α : Type} (i : ℕ) (v : α) (r : SRec α) :
    (if r.id = i then SRec.mk r.id r.text (some v) else r).id = r.id := by
  by_cases h : r.id = i <;> simp [h]

theorem updText {α : Type} (i : ℕ) (v : α) (r : SRec α) :
    (if r.id = i then SRec.mk r.id r.text (some v) else r).text = r.text := by
  by_cases h : r.id = i <;> simp [h]

theorem sortById_eq {α : Type} (l : List (SRec α))
    (h : l.Pairwise (fun a b => a.id < b.id)) : sortById l = l :=
  List.Sorted.insertionSort_eq (List.Pairwise.imp (fun hab => Nat.le_of_lt hab) h)

theorem get_pending_eq {α : Type} (st : Store α) (hwf : StoreWF st) :
    get_pending_sentences st =
      (st.recs.filter (fun r => r.perplexity.isNone)).map (fun r => (r.id, r.text)) := by
  unfold get_pending_sentences
  rw [sortById_eq _ (List.Pairwise.filter _ hwf.1)]

theorem store_result_StoreWF {α : Type} (st : Store α) (i : ℕ) (v : α)
    (hwf : StoreWF st) : StoreWF (store_result st i v) := by
  obtain ⟨h1, h2, h3⟩ := hwf
  refine ⟨?_, ?_, ?_⟩
  · show (st.recs.map (fun r => if r.id = i then SRec.mk r.id r.text (some v) else r)).Pairwise
      (fun a b => a.id < b.id)
    rw [List.pairwise_map]
    exact h1.imp (fun hab => by rw [updId, updId]; exact hab)
  · show ((st.recs.map (fun r => if r.id = i then SRec.mk r.id r.text (some v) else r)).map
      (fun r => r.text)).Nodup
    rw [List.map_map]
    rw [show ((fun r => r.text) ∘ fun r : SRec α =>
        if r.id = i then SRec.mk r.id r.text (some v) else r) = (fun r : SRec α => r.text)
      from funext (fun r => updText i v r)]
    exact h2
  · intro r hr
    obtain ⟨r0, hr0, rfl⟩ := List.mem_map.mp hr
    show (if r0.id = i then SRec.mk r0.id r0.text (some v) else r0).id < st.nextId
    rw [updId]
    exact h3 r0 hr0

theorem filter_map_update {α : Type} (i : ℕ) (v : α) :
    ∀ recs : List (SRec α),
      ((recs.map (fun r => if r.id = i then SRec.mk r.id r.text (some v) else r)).filter
          (fun r => r.perplexity.isNone)).map (fun r => (r.id, r.text)) =
        ((recs.filter (fun r => r.perplexity.isNone)).map (fun r => (r.id, r.text))).filter
          (fun p => decide (p.1 ≠ i)) := by
  intro recs
  induction recs with
  | nil => rfl
  | cons r rest ih =>
    by_cases hid : r.id = i
    · cases hp : r.perplexity with
      | none => simp [hid, hp, ih]
      | some w => simp [hid, hp, ih]
    · cases hp : r.perplexity with
      | none => simp [hid, hp, ih]
      | some w => simp [hid, hp, ih]

theorem get_pending_store_result {α : Type} (st : Store α) (i : ℕ) (v : α)
    (hwf : StoreWF st) :
    get_pending_sentences (store_result st i v) =
      (get_pending_sentences st).filter (fun p => decide (p.1 ≠ i)) := by
  rw [get_pending_eq _ (store_result_StoreWF st i v hwf), get_pending_eq st hwf]
  exact filter_map_update i v st.recs

theorem lookupScoreList_update_ne {α : Type} (i j : ℕ) (v : α) (hne : j ≠ i) :
    ∀ recs : List (SRec α),
      lookupScoreList
        (recs.map (fun r => if r.id = i then SRec.mk r.id r.text (some v) else r)) j =
      lookupScoreList recs j := by
  intro recs
  induction recs with
  | nil => rfl
  | cons r rest ih =>
    by_cases hid : r.id = i
    · have hij : ¬ i = j := fun h => hne h.symm
      simp [lookupScoreList, hid, hij, ih]
    · by_cases hrj : r.id = j
      · simp [lookupScoreList, hid, hrj, hne, ih]
      · simp [lookupScoreList, hid, hrj, hne, ih]

theorem lookupScore_store_result_ne {α : Type} (st : Store α) (i j : ℕ) (v : α)
    (hne : j ≠ i) : lookupScore (store_result st i v) j = lookupScore st j :=
  lookupScoreList_update_ne i j v hne st.recs

theorem lookupScoreList_update_self {α : Type} (i : ℕ) (v : α) :
    ∀ recs : List (SRec α), (∃ r ∈ recs, r.id = i) →
      lookupScoreList
        (recs.map (fun r => if r.id = i then SRec.mk r.id r.text (some v) else r)) i =
      some (some v) := by
  intro recs
  induction recs with
  | nil => intro h; simp at h
  | cons r rest ih =>
    intro h
    by_cases hid : r.id = i
    · simp [lookupScoreList, hid]
    · obtain ⟨r0, hr0, hr0i⟩ := h
      rcases List.mem_cons.mp hr0 with h0 | h0
      · exact absurd (h0 ▸ hr0i) hid
      · simp [lookupScoreList, hid]
        exact ih ⟨r0, h0, hr0i⟩

theorem lookupScore_store_result_self {α : Type} (st : Store α) (i : ℕ) (v : α)
    (h : ∃ r ∈ st.recs, r.id = i) :
    lookupScore (store_result st i v) i = some (some v) :=
  lookupScoreList_update_self i v st.recs h

theorem mem_get_pending {α : Type} (st : Store α) (p : ℕ × String)
    (hp : p ∈ get_pending_sentences st) :
    ∃ r ∈ st.recs, r.id = p.1 ∧ r.perplexity = none := by
  unfold get_pending_sentences at hp
  obtain ⟨r, hr, rfl⟩ := List.mem_map.mp hp
  have hr2 : r ∈ st.recs.filter (fun r => r.perplexity.isNone) :=
    (List.Perm.mem_iff (List.perm_insertionSort _ _)).mp hr
  have hm := List.mem_filter.mp hr2
  exact ⟨r, hm.1, rfl, by simpa [Option.isNone_iff_eq_none] using hm.2⟩

theorem nodup_recs_id {α : Type} (st : Store α) (hwf : StoreWF st) :
    (st.recs.map (fun r => r.id)).Nodup := by
  rw [List.Nodup, List.pairwise_map]
  exact hwf.1.imp (fun hab => Nat.ne_of_lt hab)

theorem nodup_pending_fst {α : Type} (st : Store α) (hwf : StoreWF st) :
    ((get_pending_sentences st).map Prod.fst).Nodup := by
  rw [get_pending_eq st hwf, List.map_map]
  have hs : ((st.recs.filter (fun r => r.perplexity.isNone)).map
      (Prod.fst ∘ fun r => (r.id, r.text))).Sublist
      (st.recs.map (Prod.fst ∘ fun r => (r.id, r.text))) :=
    (List.filter_sublist _).map _
  exact hs.nodup (nodup_recs_id st hwf)

theorem processFirst_zero {α : Type} (score : String → α) (st : Store α) :
    processFirst score st 0 = st := rfl

theorem processFirst_succ {α : Type} (score : String → α) (st : Store α) (n : ℕ)
    (h : n < (get_pending_sentences st).length) :
    processFirst score st (n + 1) =
      store_result (processFirst score st n) ((get_pending_sentences st).get ⟨n, h⟩).1
        (score ((get_pending_sentences st).get ⟨n, h⟩).2) := by
  unfold processFirst
  rw [List.take_succ, List.getElem?_eq_getElem h, List.foldl_append]
  simp [List.get_eq_getElem]

theorem processFirst_spec {α : Type} (score : String → α) (st : Store α)
    (hwf : StoreWF st) :
    ∀ n, n ≤ (get_pending_sentences st).length →
      StoreWF (processFirst score st n) ∧
      get_pending_sentences (processFirst score st n) = (get_pending_sentences st).drop n ∧
      (∀ j, j ∉ ((get_pending_sentences st).take n).map Prod.fst →
        lookupScore (processFirst score st n) j = lookupScore st j) ∧
      (∀ p ∈ (get_pending_sentences st).take n,
        lookupScore (processFirst score st n) p.1 = some (some (score p.2))) := by
  intro n
  induction n with
  | zero =>
    intro _
    refine ⟨hwf, by rw [processFirst_zero, List.drop_zero], ?_, ?_⟩
    · intro j _
      rw [processFirst_zero]
    · intro p hp
      simp at hp
  | succ n ih =>
    intro h
    have hlt : n < (get_pending_sentences st).length := h
    obtain ⟨ihWF, ihP, ihL, ihS⟩ := ih (Nat.le_of_succ_le h)
    have hpn : (get_pending_sentences st).get ⟨n, hlt⟩ = (get_pending_sentences st)[n] :=
      List.get_eq_getElem _ _
    have hstep := processFirst_succ score st n hlt
    have hdrop : (get_pending_sentences st).drop n =
        (get_pending_sentences st)[n] :: (get_pending_sentences st).drop (n + 1) :=
      List.drop_eq_getElem_cons hlt
    have htake : (get_pending_sentences st).take (n + 1) =
        (get_pending_sentences st).take n ++ [(get_pending_sentences st)[n]] := by
      rw [List.take_succ, List.getElem?_eq_getElem hlt]
      rfl
    have hfsts : ((get_pending_sentences st).map Prod.fst).Nodup := nodup_pending_fst st hwf
    have hdropfst : ((get_pending_sentences st).drop n).map Prod.fst =
        ((get_pending_sentences st)[n]).1 ::
          ((get_pending_sentences st).drop (n + 1)).map Prod.fst := by
      rw [hdrop]
      rfl
    have hnd : (((get_pending_sentences st).drop n).map Prod.fst).Nodup := by
      rw [List.map_drop]
      exact (List.drop_sublist _ _).nodup hfsts
    have hnotin : ((get_pending_sentences st)[n]).1 ∉
        ((get_pending_sentences st).drop (n + 1)).map Prod.fst := by
      rw [hdropfst] at hnd
      exact (List.nodup_cons.mp hnd).1
    have hdisj : List.Disjoint (((get_pending_sentences st).take n).map Prod.fst)
        (((get_pending_sentences st).drop n).map Prod.fst) := by
      rw [List.map_take, List.map_drop]
      exact List.disjoint_of_nodup_append
        (by rw [List.take_append_drop]; exact hfsts)
    refine ⟨?_, ?_, ?_, ?_⟩
    · rw [hstep, hpn]
      exact store_result_StoreWF _ _ _ ihWF
    · rw [hstep, hpn, get_pending_store_result _ _ _ ihWF, ihP, hdrop]
      rw [List.filter_cons_of_neg (by simp)]
      have hall : ∀ q ∈ (get_pending_sentences st).drop (n + 1),
          (fun p : ℕ × String => decide (p.1 ≠ ((get_pending_sentences st)[n]).1)) q = true := by
        intro q hq
        have hmemq : q.1 ∈ ((get_pending_sentences st).drop (n + 1)).map Prod.fst :=
          List.mem_map.mpr ⟨q, hq, rfl⟩
        simp only [decide_eq_true_eq]
        intro hcontr
        exact hnotin (hcontr ▸ hmemq)
      rw [List.filter_eq_self.mpr hall]
    · intro j hj
      rw [htake] at hj
      simp only [List.map_append, List.mem_append, List.map_cons, List.map_nil,
        List.mem_cons, List.not_mem_nil, or_false, not_or] at hj
      rw [hstep, hpn, lookupScore_store_result_ne _ _ _ _ hj.2]
      exact ihL j hj.1
    · intro p hp
      rw [htake] at hp
      rcases List.mem_append.mp hp with hp1 | hp1
      · have hne : p.1 ≠ ((get_pending_sentences st)[n]).1 := by
          intro hcontr
          have hmem1 : p.1 ∈ ((get_pending_sentences st).take n).map Prod.fst :=
            List.mem_map.mpr ⟨p, hp1, rfl⟩
          have hmem2 : ((get_pending_sentences st)[n]).1 ∈
              ((get_pending_sentences st).drop n).map Prod.fst := by
            rw [hdropfst]
            exact List.mem_cons_self _ _
          exact hdisj hmem1 (hcontr ▸ hmem2)
        rw [hstep, hpn, lookupScore_store_result_ne _ _ _ _ hne]
        exact ihS p hp1
      · have hpeq : p = (get_pending_sentences st)[n] := by
          simpa using hp1
        rw [hstep, hpn, ← hpeq]
        apply lookupScore_store_result_self
        have hmemp : p ∈ get_pending_sentences (processFirst score st n) := by
          rw [ihP, hdrop, ← hpeq]
          exact List.mem_cons_self _ _
        obtain ⟨r, hr, hri, _⟩ := mem_get_pending _ p hmemp
        exact ⟨r, hr, hri⟩

/-- C2: after scoring and persisting the first `n` of the pending snapshot,
(1) those `n` scores are persisted, (2) the pending list is exactly the
remaining records in order, (3) resuming with a full run leaves the first
`n` persisted scores untouched, and (4) the resumed run's pending records are
disjoint from the already-processed ones — no record is scored twice. -/
theorem C2_resumability {α : Type} (score : String → α) (st : Store α)
    (hwf : StoreWF st) (n : ℕ) (hn : n ≤ (get_pending_sentences st).length) :
    get_pending_sentences (processFirst score st n) = (get_pending_sentences st).drop n ∧
    (∀ p ∈ (get_pending_sentences st).take n,
      lookupScore (processFirst score st n) p.1 = some (some (score p.2))) ∧
    (∀ p ∈ (get_pending_sentences st).take n,
      lookupScore (process_batch score (processFirst score st n)) p.1 =
        some (some (score p.2))) ∧
    List.Disjoint ((get_pending_sentences (processFirst score st n)).map Prod.fst)
      (((get_pending_sentences st).take n).map Prod.fst) := by
  obtain ⟨hWF, hP, hL, hS⟩ := processFirst_spec score st hwf n hn
  have hfsts : ((get_pending_sentences st).map Prod.fst).Nodup := nodup_pending_fst st hwf
  have hdisj : List.Disjoint ((get_pending_sentences (processFirst score st n)).map Prod.fst)
      (((get_pending_sentences st).take n).map Prod.fst) := by
    rw [hP, List.map_take, List.map_drop]
    exact (List.disjoint_of_nodup_append
      (by rw [List.take_append_drop]; exact hfsts)).symm
  refine ⟨hP, hS, ?_, hdisj⟩
  intro p hp
  obtain ⟨hWF2, _, hL2, _⟩ := processFirst_spec score (processFirst score st n) hWF
    (get_pending_sentences (processFirst score st n)).length (Nat.le_refl _)
  unfold process_batch
  rw [hL2 p.1 ?_]
  · exact hS p hp
  · rw [List.take_length]
    intro hcontr
    exact hdisj hcontr (List.mem_map.mpr ⟨p, hp, rfl⟩)

/-- Witness for C2: a store with two pending and one scored sentence,
interrupted after one record. -/
theorem C2_resumability_witness :
    StoreWF exBatch ∧ 1 ≤ (get_pending_sentences exBatch).length ∧
    (get_pending_sentences (processFirst (fun _ => SVal.fin 7) exBatch 1) =
        (get_pending_sentences exBatch).drop 1 ∧
      (∀ p ∈ (get_pending_sentences exBatch).take 1,
        lookupScore (processFirst (fun _ => SVal.fin 7) exBatch 1) p.1 =
          some (some (SVal.fin 7))) ∧
      (∀ p ∈ (get_pending_sentences exBatch).take 1,
        lookupScore
            (process_batch (fun _ => SVal.fin 7)
              (processFirst (fun _ => SVal.fin 7) exBatch 1)) p.1 =
          some (some (SVal.fin 7))) ∧
      List.Disjoint
        ((get_pending_sentences (processFirst (fun _ => SVal.fin 7) exBatch 1)).map Prod.fst)
        (((get_pending_sentences exBatch).take 1).map Prod.fst)) :=
  ⟨by decide, by decide, C2_resumability (fun _ => SVal.fin 7) exBatch (by decide) 1 (by decide)⟩

theorem insert_if_absent_mem {α : Type} (st : Store α) (s : String)
    (h : st.recs.any (fun r => r.text == s) = true) :
    insert_if_absent st s = st := by
  unfold insert_if_absent
  rw [if_pos h]

theorem insert_if_absent_contains {α : Type} (st : Store α) (s : String) :
    ((insert_if_absent st s).recs.any (fun r => r.text == s)) = true := by
  unfold insert_if_absent
  by_cases h : st.recs.any (fun r => r.text == s) = true
  · rw [if_pos h]
    exact h
  · rw [if_neg h]
    show (st.recs ++ [SRec.mk st.nextId s none]).any (fun r => r.text == s) = true
    rw [List.any_append]
    simp

theorem length_filter_text {α : Type} (s : String) :
    ∀ recs : List (SRec α), (recs.map (fun r => r.text)).Nodup →
      (recs.filter (fun r => r.text == s)).length =
        if s ∈ recs.map (fun r => r.text) then 1 else 0 := by
  intro recs
  induction recs with
  | nil => intro _; simp
  | cons r rest ih =>
    intro hnd
    rw [List.map_cons, List.nodup_cons] at hnd
    by_cases hrt : r.text = s
    · have hnotin : s ∉ rest.map (fun r => r.text) := hrt ▸ hnd.1
      have hrest : (rest.filter (fun r => r.text == s)).length = 0 := by
        rw [ih hnd.2, if_neg hnotin]
      simp [List.filter_cons, hrt, hrest]
    · have hne : ¬ s = r.text := fun h => hrt h.symm
      simp [List.filter_cons, hrt, ih hnd.2, hne]

/-- C5: inserting the same sentence text twice leaves the second insertion a
no-op, exactly one record carries that text, and the total count reported by
the statistics is unaffected by the duplicate. -/
theorem C5_idempotent_insert (st : Store SVal) (s : String) (hwf : StoreWF st) :
    store_sentences (store_sentences st [s]) [s] = store_sentences st [s] ∧
    ((store_sentences st [s]).recs.filter (fun r => r.text == s)).length = 1 ∧
    (get_statistics (store_sentences (store_sentences st [s]) [s])).total =
      (get_statistics (store_sentences st [s])).total := by
  have hone : store_sentences st [s] = insert_if_absent st s := rfl
  have hidem : store_sentences (store_sentences st [s]) [s] = store_sentences st [s] := by
    rw [hone]
    exact insert_if_absent_mem _ s (insert_if_absent_contains st s)
  refine ⟨hidem, ?_, by rw [hidem]⟩
  rw [hone]
  unfold insert_if_absent
  by_cases h : st.recs.any (fun r => r.text == s) = true
  · rw [if_pos h]
    obtain ⟨r, hr, hrs⟩ := List.any_eq_true.mp h
    have hrts : r.text = s := by simpa using hrs
    have hmem : s ∈ st.recs.map (fun r => r.text) :=
      List.mem_map.mpr ⟨r, hr, hrts⟩
    rw [length_filter_text s st.recs hwf.2.1, if_pos hmem]
  · rw [if_neg h]
    show ((st.recs ++ [SRec.mk st.nextId s none]).filter
      (fun r : SRec SVal => r.text == s)).length = 1
    rw [List.filter_append]
    have hnil : st.recs.filter (fun r => r.text == s) = [] := by
      rw [List.filter_eq_nil_iff]
      intro r hr hbeq
      exact h (List.any_eq_true.mpr ⟨r, hr, hbeq⟩)
    rw [hnil]
    simp

theorem filter_id_update {α : Type} (i : ℕ) (v : α) :
    ∀ recs : List (SRec α), (recs.map (fun r => r.id)).Nodup → (∃ r ∈ recs, r.id = i) →
      ((recs.map (fun r => if r.id = i then SRec.mk r.id r.text (some v) else r)).filter
        (fun r => r.id == i)).map (fun r => r.perplexity) = [some v] := by
  intro recs
  induction recs with
  | nil => intro _ h; simp at h
  | cons r rest ih =>
    intro hnd hex
    rw [List.map_cons, List.nodup_cons] at hnd
    by_cases hid : r.id = i
    · have hnil : (rest.map (fun r => if r.id = i then SRec.mk r.id r.text (some v) else r)).filter
          (fun r => r.id == i) = [] := by
        rw [List.filter_eq_nil_iff]
        intro q hq
        obtain ⟨q0, hq0, rfl⟩ := List.mem_map.mp hq
        rw [updId]
        intro hbeq
        exact hnd.1 (hid ▸ eq_of_beq hbeq ▸ List.mem_map.mpr ⟨q0, hq0, rfl⟩)
      simp [List.filter_cons, hid, hnil]
    · obtain ⟨r0, hr0, hr0i⟩ := hex
      rcases List.mem_cons.mp hr0 with h0 | h0
      · exact absurd (h0 ▸ hr0i) hid
      · simp [List.filter_cons, hid]
        exact ih hnd.2 ⟨r0, h0, hr0i⟩

/-- C8 (amended): `set_score` persists the value on exactly the one record
with the given id, leaves every other record unchanged, and — when no record
with that id exists — succeeds silently as a no-op, reporting no error (an
UPDATE matching no row is not an SQLite error). -/
theorem C8_set_score {α : Type} (st : Store α) (i : ℕ) (v : α) (hwf : StoreWF st) :
    ((∃ r ∈ st.recs, r.id = i) →
      lookupScore (store_result st i v) i = some (some v)) ∧
    (∀ j, j ≠ i → lookupScore (store_result st i v) j = lookupScore st j) ∧
    (∀ r ∈ (store_result st i v).recs, r.id ≠ i → r ∈ st.recs) ∧
    ((∃ r ∈ st.recs, r.id = i) →
      ((store_result st i v).recs.filter (fun r => r.id == i)).map
        (fun r => r.perplexity) = [some v]) ∧
    ((∀ r ∈ st.recs, r.id ≠ i) → store_result_checked st i v = Except.ok st) := by
  refine ⟨?_, ?_, ?_, ?_, ?_⟩
  · exact fun h => lookupScore_store_result_self st i v h
  · exact fun j hj => lookupScore_store_result_ne st i j v hj
  · intro r hr hne
    obtain ⟨r0, h0, rfl⟩ := List.mem_map.mp hr
    by_cases hid : r0.id = i
    · exact absurd ((updId i v r0).trans hid) hne
    · rw [if_neg hid]
      exact h0
  · exact fun h => filter_id_update i v st.recs (nodup_recs_id st hwf) h
  · intro hall
    have h1 : st.recs.map (fun r => if r.id = i then SRec.mk r.id r.text (some v) else r) =
        st.recs.map id :=
      List.map_congr_left (fun r hr => if_neg (hall r hr))
    unfold store_result_checked store_result
    rw [h1, List.map_id]

/-- Witness for C5 at a concrete store and sentence already present. -/
theorem C5_idempotent_insert_witness :
    StoreWF exStats ∧
    (store_sentences (store_sentences exStats ["A"]) ["A"] = store_sentences exStats ["A"] ∧
      ((store_sentences exStats ["A"]).recs.filter (fun r => r.text == "A")).length = 1 ∧
      (get_statistics (store_sentences (store_sentences exStats ["A"]) ["A"])).total =
        (get_statistics (store_sentences exStats ["A"])).total) :=
  ⟨by decide, C5_idempotent_insert exStats "A" (by decide)⟩

/-- Witness for C8 at a concrete store, id and value. -/
theorem C8_set_score_witness :
    StoreWF exStats ∧
    (((∃ r ∈ exStats.recs, r.id = 1) →
        lookupScore (store_result exStats 1 (SVal.fin 9)) 1 = some (some (SVal.fin 9))) ∧
      (∀ j, j ≠ 1 →
        lookupScore (store_result exStats 1 (SVal.fin 9)) j = lookupScore exStats j) ∧
      (∀ r ∈ (store_result exStats 1 (SVal.fin 9)).recs, r.id ≠ 1 → r ∈ exStats.recs) ∧
      ((∃ r ∈ exStats.recs, r.id = 1) →
        ((store_result exStats 1 (SVal.fin 9)).recs.filter (fun r => r.id == 1)).map
          (fun r => r.perplexity) = [some (SVal.fin 9)]) ∧
      ((∀ r ∈ exStats.recs, r.id ≠ 1) →
        store_result_checked exStats 1 (SVal.fin 9) = Except.ok exStats)) :=
  ⟨by decide, C8_set_score exStats 1 (SVal.fin 9) (by decide)⟩

theorem key_fin_ten : complexityKey (SVal.fin 3) 10 = ((3 : ℝ) : EReal) := by
  unfold complexityKey
  rw [if_neg (by norm_num)]
  have h10 : ((10 : ℕ) : ℝ) = (10 : ℝ) := by norm_num
  rw [h10, Real.logb_self_eq_one (by norm_num)]
  norm_num

theorem key_inf_ten : complexityKey SVal.inf 10 = (⊤ : EReal) := by
  unfold complexityKey
  rw [if_neg (by norm_num), if_neg (by norm_num)]

theorem eligible_exComplex : eligibleComplex exComplex 2 =
    [SRec.mk 1 "aaaaaaaaaa" (some (SVal.fin 3)), SRec.mk 2 "bbbbbbbbbb" (some SVal.inf)] := by
  decide

theorem sorted_exComplex : sortedComplex exComplex 2 =
    [SRec.mk 2 "bbbbbbbbbb" (some SVal.inf), SRec.mk 1 "aaaaaaaaaa" (some (SVal.fin 3))] := by
  have hrel : ¬ complexDescRel (SRec.mk 1 "aaaaaaaaaa" (some (SVal.fin 3)))
      (SRec.mk 2 "bbbbbbbbbb" (some SVal.inf)) := by
    intro hcontr
    have hc2 : complexityKey SVal.inf 10 ≤ complexityKey (SVal.fin 3) 10 := hcontr
    rw [key_inf_ten, key_fin_ten] at hc2
    exact EReal.coe_ne_top 3 (top_le_iff.mp hc2)
  classical
  unfold sortedComplex
  rw [eligible_exComplex]
  show List.orderedInsert complexDescRel (SRec.mk 1 "aaaaaaaaaa" (some (SVal.fin 3)))
      [SRec.mk 2 "bbbbbbbbbb" (some SVal.inf)] = _
  simp only [List.orderedInsert]
  rw [if_neg hrel]

/-- C7 counterexample: on a store holding a finite score 3 with text length 10
and an infinite score with text length 10, `most_complex` returns the
infinite-scored record (ranked first) — the claim says only finite scores are
considered — and reports the finite record's complexity as
`3 = 3 * log10(10)`, while the claim's `perplexity * ln(length)` would be
`3 * ln 10 ≠ 3` (SQLite `LOG` is base 10, not the natural logarithm). -/
theorem C7_counterexample :
    get_most_complex_sentences exComplex 5 2 =
      [("bbbbbbbbbb", SVal.inf, (⊤ : EReal)), ("aaaaaaaaaa", SVal.fin 3, ((3 : ℝ) : EReal))] ∧
    (3 : ℝ) ≠ 3 * Real.log 10 := by
  constructor
  · unfold get_most_complex_sentences
    rw [sorted_exComplex]
    have hk2 : complexityKey (perpOf (SRec.mk 2 "bbbbbbbbbb" (some SVal.inf)))
        ((SRec.mk 2 "bbbbbbbbbb" (some SVal.inf)).text.length) = (⊤ : EReal) := key_inf_ten
    have hk1 : complexityKey (perpOf (SRec.mk 1 "aaaaaaaaaa" (some (SVal.fin 3))))
        ((SRec.mk 1 "aaaaaaaaaa" (some (SVal.fin 3))).text.length) = ((3 : ℝ) : EReal) :=
      key_fin_ten
    show [((SRec.mk 2 "bbbbbbbbbb" (some SVal.inf)).text,
        perpOf (SRec.mk 2 "bbbbbbbbbb" (some SVal.inf)),
        complexityKey (perpOf (SRec.mk 2 "bbbbbbbbbb" (some SVal.inf)))
          ((SRec.mk 2 "bbbbbbbbbb" (some SVal.inf)).text.length)),
      ((SRec.mk 1 "aaaaaaaaaa" (some (SVal.fin 3))).text,
        perpOf (SRec.mk 1 "aaaaaaaaaa" (some (SVal.fin 3))),
        complexityKey (perpOf (SRec.mk 1 "aaaaaaaaaa" (some (SVal.fin 3))))
          ((SRec.mk 1 "aaaaaaaaaa" (some (SVal.fin 3))).text.length))] = _
    rw [hk1, hk2]
    rfl
  · have hlog : (1 : ℝ) < Real.log 10 := by
      rw [Real.lt_log_iff_exp_lt (by norm_num : (0 : ℝ) < 10)]
      calc Real.exp 1 < 2.7182818286 := Real.exp_one_lt_d9
        _ < 10 := by norm_num
    intro hcontr
    nlinarith [hlog]

/-- C7 (amended): `most_complex(n, min_length)` considers exactly the scored
records (finite or infinite — the `!= 'inf'` filter excludes nothing) with
text length at least `min_length`, ranks them by the complexity key
`perplexity * LOG10(length)` in descending order (an infinite perplexity
ranking as infinite for lengths above 1), returns the top `n`, and reports
that key as each record's complexity score. -/
theorem C7_most_complex (st : Store SVal) (n min_length : ℕ) :
    (get_most_complex_sentences st n min_length).length =
      min n (eligibleComplex st min_length).length ∧
    (∀ x ∈ get_most_complex_sentences st n min_length,
      ∃ r ∈ st.recs, ∃ v, r.perplexity = some v ∧ min_length ≤ r.text.length ∧
        x = (r.text, v, complexityKey v r.text.length)) ∧
    (get_most_complex_sentences st n min_length).Pairwise (fun a b => b.2.2 ≤ a.2.2) ∧
    (∀ a ∈ (sortedComplex st min_length).take n,
      ∀ b ∈ (sortedComplex st min_length).drop n,
        complexityKey (perpOf b) b.text.length ≤ complexityKey (perpOf a) a.text.length) := by
  classical
  have hperm : List.Perm (sortedComplex st min_length) (eligibleComplex st min_length) := by
    unfold sortedComplex
    exact List.perm_insertionSort _ _
  have hsorted : List.Sorted complexDescRel (sortedComplex st min_length) := by
    unfold sortedComplex
    exact List.sorted_insertionSort _ _
  refine ⟨?_, ?_, ?_, ?_⟩
  · unfold get_most_complex_sentences
    rw [List.length_map, List.length_take, hperm.length_eq]
  · intro x hx
    unfold get_most_complex_sentences at hx
    obtain ⟨r, hr, rfl⟩ := List.mem_map.mp hx
    have hre : r ∈ eligibleComplex st min_length :=
      hperm.mem_iff.mp (List.mem_of_mem_take hr)
    have hmf := List.mem_filter.mp hre
    have hcond := hmf.2
    rw [Bool.and_eq_true] at hcond
    cases hp : r.perplexity with
    | none =>
      rw [hp] at hcond
      simp at hcond
    | some v =>
      have hpv : perpOf r = v := by
        unfold perpOf
        rw [hp]
        rfl
      refine ⟨r, hmf.1, v, hp, of_decide_eq_true hcond.2, ?_⟩
      rw [hpv]
  · unfold get_most_complex_sentences
    exact List.Pairwise.map _ (fun a b hab => hab)
      (List.Pairwise.sublist (List.take_sublist n _) hsorted)
  · intro a ha b hb
    exact hsorted.rel_of_mem_take_of_mem_drop ha hb

theorem parseDigit_digitChar : ∀ d, d < 10 → parseDigit (Nat.digitChar d) = some d := by
  decide

theorem digitChar_bounds : ∀ d, d < 10 →
    ('0' ≤ Nat.digitChar d ∧ Nat.digitChar d ≤ '9') := by
  decide

theorem showNat_mem (n : ℕ) : ∀ c ∈ showNat n, ('0' ≤ c ∧ c ≤ '9') := by
  intro c hc
  unfold showNat at hc
  by_cases h : n = 0
  · rw [if_pos h] at hc
    rcases List.mem_singleton.mp hc with rfl
    decide
  · rw [if_neg h] at hc
    rw [List.mem_reverse] at hc
    obtain ⟨d, hd, rfl⟩ := List.mem_map.mp hc
    exact digitChar_bounds d (Nat.digits_lt_base (by norm_num) hd)

theorem digit_ne (c : Char) (h : '0' ≤ c ∧ c ≤ '9') :
    c ≠ '-' ∧ c ≠ '/' ∧ c ≠ '\n' ∧ c ≠ '"' ∧ c ≠ 'i' := by
  refine ⟨?_, ?_, ?_, ?_, ?_⟩ <;>
    · intro hc
      rw [hc] at h
      exact absurd h (by decide)

theorem parseNatAux_digits :
    ∀ ds : List ℕ, (∀ d ∈ ds, d < 10) → ∀ acc,
      parseNatAux (ds.map Nat.digitChar) acc =
        some (ds.foldl (fun a d => 10 * a + d) acc) := by
  intro ds
  induction ds with
  | nil => intro _ acc; rfl
  | cons d rest ih =>
    intro hlt acc
    show parseNatAux (Nat.digitChar d :: rest.map Nat.digitChar) acc = _
    unfold parseNatAux
    rw [parseDigit_digitChar d (hlt d (List.mem_cons_self _ _))]
    exact ih (fun e he => hlt e (List.mem_cons_of_mem _ he)) _

theorem foldl_reverse_ofDigits :
    ∀ ds : List ℕ, ∀ acc : ℕ,
      (ds.reverse).foldl (fun a d => 10 * a + d) acc =
        acc * 10 ^ ds.length + Nat.ofDigits 10 ds := by
  intro ds
  induction ds with
  | nil => intro acc; simp [Nat.ofDigits]
  | cons d rest ih =>
    intro acc
    rw [List.reverse_cons, List.foldl_append, ih acc]
    show 10 * (acc * 10 ^ rest.length + Nat.ofDigits 10 rest) + d = _
    rw [Nat.ofDigits_cons, List.length_cons]
    ring

theorem parseNatChars_showNat (n : ℕ) : parseNatChars (showNat n) = some n := by
  unfold showNat
  by_cases h : n = 0
  · rw [if_pos h, h]
    rfl
  · rw [if_neg h]
    rw [show ((Nat.digits 10 n).map Nat.digitChar).reverse =
      ((Nat.digits 10 n).reverse).map Nat.digitChar from (List.map_reverse _ _).symm]
    have hne : (Nat.digits 10 n).reverse ≠ [] := by
      simp [Nat.digits_ne_nil_iff_ne_zero.mpr h]
    obtain ⟨d, ds, hds⟩ := List.exists_cons_of_ne_nil hne
    rw [hds]
    show parseNatAux (Nat.digitChar d :: ds.map Nat.digitChar) 0 = some n
    rw [show Nat.digitChar d :: ds.map Nat.digitChar = (d :: ds).map Nat.digitChar from rfl]
    rw [parseNatAux_digits (d :: ds) ?hlt 0, ← hds, foldl_reverse_ofDigits, Nat.zero_mul,
      Nat.zero_add, Nat.ofDigits_digits]
    case hlt =>
      intro e he
      exact Nat.digits_lt_base (by norm_num)
        (List.mem_reverse.mp (hds ▸ he : e ∈ (Nat.digits 10 n).reverse))

theorem showNat_head (n : ℕ) :
    ∃ c cs, showNat n = c :: cs ∧ ('0' ≤ c ∧ c ≤ '9') := by
  have hne : showNat n ≠ [] := by
    unfold showNat
    by_cases h : n = 0
    · simp [h]
    · simp [h, Nat.digits_ne_nil_iff_ne_zero.mpr h]
  obtain ⟨c, cs, hcs⟩ := List.exists_cons_of_ne_nil hne
  exact ⟨c, cs, hcs, showNat_mem n c (hcs ▸ List.mem_cons_self _ _)⟩

theorem parseIntChars_showInt (i : ℤ) : parseIntChars (showInt i) = some i := by
  unfold showInt
  by_cases h : i < 0
  · rw [if_pos h]
    show (parseNatChars (showNat i.natAbs)).map (fun n => -(n : ℤ)) = some i
    rw [parseNatChars_showNat]
    show some (-(i.natAbs : ℤ)) = some i
    congr 1
    omega
  · rw [if_neg h]
    obtain ⟨c, cs, hcs, hdig⟩ := showNat_head i.natAbs
    rw [hcs]
    show (if c = '-' then (parseNatChars cs).map (fun n => -(n : ℤ))
      else (parseNatChars (c :: cs)).map (fun n => (n : ℤ))) = some i
    rw [if_neg (digit_ne c hdig).1, ← hcs, parseNatChars_showNat]
    show some ((i.natAbs : ℤ)) = some i
    congr 1
    omega

theorem not_mem_showInt (i : ℤ) : '\n' ∉ showInt i ∧ '/' ∉ showInt i := by
  constructor <;>
    · intro hm
      unfold showInt at hm
      by_cases h : i < 0
      · rw [if_pos h] at hm
        rcases List.mem_cons.mp hm with hc | hc
        · exact absurd hc (by decide)
        · exact absurd (showNat_mem _ _ hc) (by decide)
      · rw [if_neg h] at hm
        exact absurd (showNat_mem _ _ hm) (by decide)

theorem newline_not_mem_showScore (v : SVal) : '\n' ∉ showScore v := by
  intro hm
  cases v with
  | inf => exact absurd hm (by decide)
  | fin q =>
    have hm2 : '\n' ∈ showInt q.num ++ '/' :: showNat q.den := hm
    rcases List.mem_append.mp hm2 with hc | hc
    · exact (not_mem_showInt q.num).1 hc
    · rcases List.mem_cons.mp hc with hc2 | hc2
      · exact absurd hc2 (by decide)
      · exact absurd (showNat_mem _ _ hc2) (by decide)

theorem splitOnChar_append (sep : Char) :
    ∀ a b : List Char, sep ∉ a → splitOnChar sep (a ++ sep :: b) = some (a, b) := by
  intro a
  induction a with
  | nil =>
    intro b _
    show splitOnChar sep (sep :: b) = _
    unfold splitOnChar
    rw [if_pos rfl]
  | cons c cs ih =>
    intro b hnm
    have hc : ¬ c = sep := fun h => hnm (h ▸ List.mem_cons_self _ _)
    show splitOnChar sep (c :: (cs ++ sep :: b)) = _
    unfold splitOnChar
    rw [if_neg hc, ih b (fun h => hnm (List.mem_cons_of_mem _ h))]

theorem showScore_fin_ne_inf (q : ℚ) : showScore (SVal.fin q) ≠ ['i', 'n', 'f'] := by
  intro h0
  have h : showInt q.num ++ '/' :: showNat q.den = ['i', 'n', 'f'] := h0
  unfold showInt at h
  by_cases hneg : q.num < 0
  · rw [if_pos hneg] at h
    rw [List.cons_append] at h
    injection h with h1 _
    exact absurd h1 (by decide)
  · rw [if_neg hneg] at h
    obtain ⟨c, cs, hcs, hdig⟩ := showNat_head q.num.natAbs
    rw [hcs, List.cons_append] at h
    injection h with h1 _
    exact (digit_ne c hdig).2.2.2.2 h1

theorem parseScoreChars_showScore (v : SVal) : parseScoreChars (showScore v) = some v := by
  cases v with
  | inf => decide
  | fin q =>
    unfold parseScoreChars
    rw [if_neg (showScore_fin_ne_inf q)]
    rw [show showScore (SVal.fin q) = showInt q.num ++ '/' :: showNat q.den from rfl]
    rw [splitOnChar_append '/' _ _ (not_mem_showInt q.num).2]
    show (match parseIntChars (showInt q.num), parseNatChars (showNat q.den) with
      | some num, some den => some (SVal.fin (mkRat num den))
      | _, _ => none) = some (SVal.fin q)
    rw [parseIntChars_showInt, parseNatChars_showNat]
    show some (SVal.fin (mkRat q.num q.den)) = some (SVal.fin q)
    rw [Rat.mkRat_self]

theorem parseFieldAux_escape :
    ∀ (t : List Char) (acc : List Char) (rs : List Char),
      parseFieldAux (csvEscape t ++ '"' :: ',' :: rs) acc = some (acc ++ t, ',' :: rs) := by
  intro t
  induction t with
  | nil =>
    intro acc rs
    show parseFieldAux ('"' :: ',' :: rs) acc = _
    unfold parseFieldAux
    rw [if_pos rfl]
    simp
  | cons c cs ih =>
    intro acc rs
    by_cases hc : c = '"'
    · subst hc
      show parseFieldAux ('"' :: '"' :: (csvEscape cs ++ '"' :: ',' :: rs)) acc = _
      unfold parseFieldAux
      rw [if_pos rfl]
      show parseFieldAux (csvEscape cs ++ '"' :: ',' :: rs) (acc ++ ['"']) = _
      rw [ih]
      simp
    · have he : csvEscape (c :: cs) = c :: csvEscape cs := by
        show (if c = '"' then '"' :: '"' :: csvEscape cs else c :: csvEscape cs) = _
        rw [if_neg hc]
      rw [he, List.cons_append]
      unfold parseFieldAux
      rw [if_neg hc, ih]
      simp

theorem parseRow_line (t : String) (v : SVal) (tail : List Char) :
    parseRow (csvLine (t, v) ++ tail) = some ((t, v), tail) := by
  have hshape : csvLine (t, v) ++ tail =
      '"' :: (csvEscape t.data ++ '"' :: ',' :: (showScore v ++ '\n' :: tail)) := by
    unfold csvLine
    simp [List.append_assoc]
  rw [hshape]
  show (match parseFieldAux (csvEscape t.data ++ '"' :: ',' :: (showScore v ++ '\n' :: tail)) []
      with
    | some (tchars, rest2) =>
      match rest2 with
      | ',' :: rest3 =>
        match splitOnChar '\n' rest3 with
        | some (schars, rest4) =>
          match parseScoreChars schars with
          | some w => some ((String.mk tchars, w), rest4)
          | none => none
        | none => none
      | _ => none
    | none => none) = some ((t, v), tail)
  rw [parseFieldAux_escape]
  show (match splitOnChar '\n' (showScore v ++ '\n' :: tail) with
    | some (schars, rest4) =>
      match parseScoreChars schars with
      | some w => some ((String.mk ([] ++ t.data), w), rest4)
      | none => none
    | none => none) = some ((t, v), tail)
  rw [splitOnChar_append '\n' _ _ (newline_not_mem_showScore v)]
  show (match parseScoreChars (showScore v) with
    | some w => some ((String.mk ([] ++ t.data), w), tail)
    | none => none) = some ((t, v), tail)
  rw [parseScoreChars_showScore]
  rfl

theorem csvLines_cons (row : String × SVal) (rest : List (String × SVal)) :
    csvLines (row :: rest) = csvLine row ++ csvLines rest := rfl

theorem parseRowsAux_lines :
    ∀ rows : List (String × SVal), ∀ fuel, (csvLines rows).length ≤ fuel →
      parseRowsAux fuel (csvLines rows) = some rows := by
  intro rows
  induction rows with
  | nil => intro fuel _; cases fuel <;> rfl
  | cons row rest ih =>
    intro fuel hlen
    obtain ⟨t, v⟩ := row
    have hshape : csvLines ((t, v) :: rest) =
        '"' :: (csvEscape t.data ++ '"' :: ',' :: showScore v ++ '\n' :: csvLines rest) := by
      rw [csvLines_cons]
      unfold csvLine
      simp [List.append_assoc]
    cases fuel with
    | zero =>
      exfalso
      rw [hshape] at hlen
      simp at hlen
    | succ f =>
      rw [hshape]
      show (match parseRow ('"' :: (csvEscape t.data ++ '"' :: ',' :: showScore v ++
          '\n' :: csvLines rest)) with
        | some (row2, remaining) => (parseRowsAux f remaining).map (fun rs => row2 :: rs)
        | none => none) = some ((t, v) :: rest)
      rw [← hshape, csvLines_cons, parseRow_line]
      show (parseRowsAux f (csvLines rest)).map (fun rs => (t, v) :: rs) = _
      rw [ih f ?hf]
      · rfl
      case hf =>
        rw [hshape] at hlen
        simp only [List.length_cons] at hlen
        have : (csvLines rest).length ≤
            (csvEscape t.data ++ '"' :: ',' :: showScore v ++ '\n' :: csvLines rest).length := by
          simp [List.length_append]
          omega
        omega

/-- C9: exporting any list of (text, score) rows in the delimited csv format
and parsing the output back yields exactly the same rows in the same order —
embedded quotes are escaped as `""` and unescaped, embedded delimiters and
newlines are protected by the quoted field, and the exporter preserves the
ordering of the rows it is given. -/
theorem C9_roundtrip (rows : List (String × SVal)) :
    parse_csv (export_to_text_csv rows) = some rows := by
  unfold parse_csv export_to_text_csv
  rw [show (String.mk (csvHeaderChars ++ csvLines rows)).data =
    csvHeaderChars ++ csvLines rows from rfl]
  rw [List.take_left, List.drop_left, if_pos rfl]
  exact parseRowsAux_lines rows _ (Nat.le_refl _)
